import Mathlib

/-!
Verification of the codesync-server runtime against its design document.

The development shallowly embeds the session/process lifecycle manager of
`src/server/index.js` and the Java entry-point resolver variants of
`src/unnamed/part_000`.  Pure string and list processing is translated
directly; filesystem and child-process effects are made explicit as state
(lists of live process ids and existing workspace directories) or as
oracle parameters standing for the results of external commands.
-/

namespace CodeSync

/-! ## Generic list and string helpers

`dedupFirst` models the JavaScript idiom `Array.from(new Set(xs))`, which
keeps the first occurrence of every element.
-/

def dedupFirstAux (seen : List String) : List String → List String
  | [] => []
  | x :: l =>
    if seen.contains x then dedupFirstAux seen l
    else x :: dedupFirstAux (x :: seen) l

def dedupFirst (l : List String) : List String := dedupFirstAux [] l

theorem dedupFirstAux_eq_filter :
    ∀ (l : List String), l.Nodup →
      ∀ seen, dedupFirstAux seen l = l.filter (fun x => !(seen.contains x)) := by
  intro l
  induction l with
  | nil => intro _ _; rfl
  | cons x l ih =>
    intro h seen
    have hx : x ∉ l := (List.nodup_cons.mp h).1
    have hl : l.Nodup := (List.nodup_cons.mp h).2
    by_cases hc : seen.contains x
    · simp only [dedupFirstAux, hc, if_true, List.filter_cons, Bool.not_true]
      exact ih hl seen
    · simp only [dedupFirstAux, hc, if_false, List.filter_cons,
        Bool.not_eq_true', Bool.not_eq_false]
      have hrec := ih hl (x :: seen)
      simp only [Bool.not_eq_true] at hc
      simp only [hc, Bool.not_false, if_true, hrec, List.contains_cons]
      refine congrArg (x :: ·) (List.filter_congr ?_)
      intro a ha
      have hax : a ≠ x := fun he => hx (he ▸ ha)
      simp [hax]

theorem dedupFirst_eq_self {l : List String} (h : l.Nodup) : dedupFirst l = l := by
  have := dedupFirstAux_eq_filter l h []
  simpa [dedupFirst] using this

/-- contains-substring test over character lists (used to model
JavaScript `String.prototype.includes` and literal-only regexes). -/
def containsSeq (needle : List Char) : List Char → Bool
  | [] => needle.isEmpty
  | c :: t => needle.isPrefixOf (c :: t) || containsSeq needle t

/-- word character of the JavaScript regex class `\w`: ASCII letters, digits
and underscore. -/
def isWordChar (c : Char) : Bool :=
  (('A' ≤ c && c ≤ 'Z') || ('a' ≤ c && c ≤ 'z') || ('0' ≤ c && c ≤ '9') || c = '_')

/-- whitespace of the JavaScript regex class `\s` (the ASCII part, which is
the only part the embedded regexes are exercised on). -/
def isSpaceChar (c : Char) : Bool :=
  (c = ' ' || c = '\t' || c = '\n' || c = '\r' || c = '\x0b' || c = '\x0c')

/-- consume an exact literal, returning the rest of the input. -/
def eatLit : List Char → List Char → Option (List Char)
  | [], cs => some cs
  | _ :: _, [] => none
  | l :: ls, c :: cs => if c = l then eatLit ls cs else none

/-- consume zero or more whitespace characters (regex fragment ` \s* `). -/
def eatWsStar : List Char → List Char
  | [] => []
  | c :: cs => if isSpaceChar c then eatWsStar cs else c :: cs

/-- consume one or more whitespace characters (regex fragment ` \s+ `). -/
def eatWsPlus : List Char → Option (List Char)
  | [] => none
  | c :: cs => if isSpaceChar c then some (eatWsStar cs) else none

/-! ## Workspace materialization paths (run branch of the message handler)

`src/server/index.js` lines 229 to 235: every submitted file is written at
`path.join(workdir, file.name)` with parent directories created first.
Paths are modelled as lists of segments below an absolute root; `path.join`
normalization resolves `.` and `..` segments, where `..` above the root of
an absolute path is dropped (POSIX semantics of the node path module).
-/

def strEndsWith (s suffix : String) : Bool :=
  suffix.toList.isSuffixOf s.toList

def splitSegsAux (cur : List Char) : List Char → List (List Char)
  | [] => [cur.reverse]
  | c :: cs =>
    if c = '/' then cur.reverse :: splitSegsAux [] cs
    else splitSegsAux (c :: cur) cs

def splitPath (s : String) : List String :=
  ((splitSegsAux [] s.toList).map (fun cs => String.mk cs)).filter
    (fun seg => !(seg == ""))

def normStep (acc : List String) (seg : String) : List String :=
  if seg = "." then acc
  else if seg = ".." then
    match acc with
    | [] => []
    | _ :: t => t
  else seg :: acc

/-- resolved target of `path.join(workdir, name)` for an absolute,
already-normalized `workdir` given as segments. -/
def resolveJoin (workdir : List String) (name : String) : List String :=
  ((workdir ++ splitPath name).foldl normStep []).reverse

/-- a resolved path lies inside the workspace root when the root segments
are a prefix of it. -/
def isWithin (workdir p : List String) : Bool := workdir.isPrefixOf p

structure SrcFile where
  name : String
  content : String
deriving DecidableEq

/-- targets actually written by the materialization loop: the code skips a
file with a falsy name and otherwise writes at the joined path with no
containment check (`src/server/index.js` lines 229 to 235). -/
def materializeTargets (workdir : List String) (files : List SrcFile) : List (List String) :=
  (files.filter (fun f => !(f.name == ""))).map (fun f => resolveJoin workdir f.name)

/-- [C3] The claim states that workspace materialization rejects any file
whose resolved path falls outside the scratch root.  The code has no such
check: a file named `../evil.txt` resolves to a sibling of the workspace
directory and is written there, while (for contrast) an absolute-looking
name is kept inside because `path.join` concatenates rather than resets. -/
theorem c3_traversal_write_outside :
    materializeTargets ["tmp", "code-sync-abc123"] [⟨"../evil.txt", "x"⟩]
        = [["tmp", "evil.txt"]]
      ∧ isWithin ["tmp", "code-sync-abc123"] ["tmp", "evil.txt"] = false
      ∧ resolveJoin ["tmp", "code-sync-abc123"] "/etc/passwd"
        = ["tmp", "code-sync-abc123", "etc", "passwd"] := by
  decide

/-! ## Session state, cleanup routine and terminal paths

One connection owns the mutable pair `(proc, workdir)`
(`src/server/index.js` lines 208 to 209).  The world also tracks which
process ids are alive and which workspace directories exist on disk, so
that killing and removing have observable effect.
-/

/-- JSON-style payload values of outbound messages: `exit` carries either a
numeric exit code, `null` (killed by signal), or the string marker. -/
inductive JVal where
  | num (n : Int)
  | str (s : String)
  | null
deriving DecidableEq

/-- outbound session events (`ws.send` payloads of the run lifecycle). -/
inductive Ev where
  | stdoutEv (s : String)
  | stderrEv (s : String)
  | errorEv (s : String)
  | exitEv (v : JVal)
deriving DecidableEq

structure Sess where
  proc : Option Nat
  wdir : Option Nat
deriving DecidableEq

structure World where
  sess : Sess
  alive : List Nat
  dirs : List Nat
deriving DecidableEq

/-- result a `runCommand(cmd, args, options)` promise resolves to: exit
code with collected stdout and stderr on close, or code `-1` with the
error message as stderr when spawning failed (`src/server/index.js` lines
150 to 168). -/
structure CmdResult where
  code : Int
  stdout : String
  stderr : String
deriving DecidableEq

/-- model of `fs.rmSync(workdir, { recursive: true, force: true })`, which
can throw (modelled by `rmOk = false`). -/
def rmSyncModel (rmOk : Bool) (d : Nat) (w : World) : Except String World :=
  if rmOk then Except.ok { w with dirs := w.dirs.filter (fun x => !(x == d)) }
  else Except.error "EACCES"

/-- `cleanupProcess(proc, workdir)` from `src/server/index.js` lines 133 to
144: kill the process when one is given and not yet dead, then best-effort
remove the directory, swallowing a removal failure with an empty catch.
The arguments are the values of the session variables at the call site. -/
def cleanupProcess (rmOk : Bool) (p d : Option Nat) (w : World) : World :=
  let w1 : World :=
    match p with
    | none => w
    | some pid => { w with alive := w.alive.filter (fun x => !(x == pid)) }
  match d with
  | none => w1
  | some dd =>
    match rmSyncModel rmOk dd w1 with
    | Except.ok w2 => w2
    | Except.error _ => w1

/-- state effect shared by every terminal branch of the run lifecycle:
`cleanupProcess(proc, workdir); proc = null; workdir = null;`. -/
def finishRun (rmOk : Bool) (w : World) : World :=
  let w1 := cleanupProcess rmOk w.sess.proc w.sess.wdir w
  { w1 with sess := ⟨none, none⟩ }

/-- the terminal paths of a run, one constructor per code branch that ends
a run in `src/server/index.js` (entry check line 240, unsupported language
line 330, compile failures lines 277/293/308, null process guard line 337,
catch-all line 367, close handler line 353, error handler line 360,
terminate branch line 441, preemption lines 222 to 224, socket close
handler line 450). -/
inductive EndPath where
  | entryMissing (entry : String)
  | unsupportedLang (lang : String)
  | compileFail (fallback : String) (r : CmdResult)
  | spawnNull
  | thrown (emsg : String)
  | procClose (c : Option Int)
  | procError (emsg : String)
  | terminateMsg
  | preemptRun
  | connClose

/-- exit payload of the natural close handler: the numeric exit code, or
`null` when the process was ended by a signal. -/
def naturalExitPayload : Option Int → JVal
  | some n => JVal.num n
  | none => JVal.null

/-- message sent on a failed compile: `compile.stderr || fallback`, where
the JavaScript or-else fires exactly on the empty (falsy) string. -/
def compileErrorData (fallback : String) (r : CmdResult) : String :=
  if r.stderr = "" then fallback else r.stderr

/-- the event each terminal branch sends, as written at the branch. -/
def eventsOf : EndPath → List Ev
  | EndPath.entryMissing e => [Ev.errorEv ("Entry file not found: " ++ e)]
  | EndPath.unsupportedLang l => [Ev.errorEv ("Language not supported: " ++ l)]
  | EndPath.compileFail fb r => [Ev.errorEv (compileErrorData fb r)]
  | EndPath.spawnNull => [Ev.errorEv "Failed to start runtime process"]
  | EndPath.thrown m => [Ev.errorEv ("Runtime error: " ++ m)]
  | EndPath.procClose c => [Ev.exitEv (naturalExitPayload c)]
  | EndPath.procError m => [Ev.errorEv ("Failed to start runtime: " ++ m)]
  | EndPath.terminateMsg => [Ev.exitEv (JVal.str "terminated")]
  | EndPath.preemptRun => []
  | EndPath.connClose => []

/-- every terminal branch funnels through the same cleanup-and-null code
and sends the events of the branch. -/
def endRun (rmOk : Bool) (path : EndPath) (w : World) : World × List Ev :=
  (finishRun rmOk w, eventsOf path)

theorem filter_idem (l : List Nat) (f : Nat → Bool) :
    (l.filter f).filter f = l.filter f := by
  rw [List.filter_filter]
  exact List.filter_congr (fun a _ => by cases h : f a <;> simp [h])

/-- [C2] Every terminal path of a run goes through the single cleanup
routine: the tracked workspace directory is gone from disk and the session
variable is nulled afterwards, the routine is idempotent, and a removal
failure is swallowed (the routine still completes, having done the kill). -/
theorem c2_every_terminal_path_cleans_workspace
    (path : EndPath) (w : World) (d : Nat) (h : w.sess.wdir = some d) :
    ((endRun true path w).1.sess.wdir = none
        ∧ d ∉ (endRun true path w).1.dirs)
      ∧ (∀ rmOk p dd w2,
          cleanupProcess rmOk p dd (cleanupProcess rmOk p dd w2)
            = cleanupProcess rmOk p dd w2)
      ∧ (∀ p dd w2,
          cleanupProcess false p (some dd) w2 = cleanupProcess true p none w2) := by
  refine ⟨⟨?_, ?_⟩, ?_, ?_⟩
  · simp [endRun, finishRun]
  · cases hp : w.sess.proc <;>
      simp [endRun, finishRun, cleanupProcess, h, hp, rmSyncModel, List.mem_filter]
  · intro rmOk p dd w2
    cases p <;> cases dd <;> cases rmOk <;>
      simp [cleanupProcess, rmSyncModel, filter_idem]
  · intro p dd w2
    cases p <;> simp [cleanupProcess, rmSyncModel]

theorem c2_cleanup_witness :
    ((endRun true (EndPath.procClose (some 0))
        ⟨⟨some 5, some 3⟩, [5], [3]⟩).1.sess.wdir = none)
      ∧ 3 ∉ (endRun true (EndPath.procClose (some 0))
        ⟨⟨some 5, some 3⟩, [5], [3]⟩).1.dirs :=
  (c2_every_terminal_path_cleans_workspace (EndPath.procClose (some 0))
    ⟨⟨some 5, some 3⟩, [5], [3]⟩ 3 rfl).1

/-! ## Compiled-language branch (java, c, cpp) -/

/-- post-compile decision of the compiled-language branches of
`src/server/index.js` (lines 274 to 318): nonzero compiler exit sends one
error event with `compile.stderr || fallback` and cleans up without
spawning; zero exit proceeds to spawn the run process. -/
def compiledBranchRun (rmOk : Bool) (fallback : String) (r : CmdResult)
    (newPid : Nat) (w : World) : World × List Ev × Option Nat :=
  if r.code ≠ 0 then
    (finishRun rmOk w, [Ev.errorEv (compileErrorData fallback r)], none)
  else
    ({ w with sess := ⟨some newPid, w.sess.wdir⟩, alive := newPid :: w.alive },
      [], some newPid)

def isErrorEv : Ev → Bool
  | Ev.errorEv _ => true
  | _ => false

/-- [C4, counterexample] With a nonzero compiler exit and empty stderr the
emitted error event carries the fixed fallback text, not the (empty)
compiler stderr verbatim, so the claim as stated fails. -/
theorem c4_empty_stderr_not_verbatim :
    (compiledBranchRun true "Java compilation failed" ⟨1, "", ""⟩ 0
        ⟨⟨none, some 0⟩, [], [0]⟩).2.1 = [Ev.errorEv "Java compilation failed"]
      ∧ [Ev.errorEv "Java compilation failed"]
          ≠ [Ev.errorEv (CmdResult.stderr ⟨1, "", ""⟩)] := by
  decide

/-- [C4, amended] On a nonzero compiler exit exactly one error event is
emitted, carrying the compiler stderr verbatim when it is nonempty and a
fixed language fallback message when it is empty; no process is spawned,
the workspace directory is removed, and the session variables are reset. -/
theorem c4_compile_failure_amended (fallback : String) (r : CmdResult) (newPid : Nat)
    (w : World) (d : Nat) (hc : r.code ≠ 0) (hd : w.sess.wdir = some d) :
    (compiledBranchRun true fallback r newPid w).2.1
        = [Ev.errorEv (compileErrorData fallback r)]
      ∧ ((compiledBranchRun true fallback r newPid w).2.1.countP isErrorEv) = 1
      ∧ (compiledBranchRun true fallback r newPid w).2.2 = none
      ∧ (compiledBranchRun true fallback r newPid w).1.sess = ⟨none, none⟩
      ∧ d ∉ (compiledBranchRun true fallback r newPid w).1.dirs
      ∧ (r.stderr ≠ "" →
          (compiledBranchRun true fallback r newPid w).2.1 = [Ev.errorEv r.stderr]) := by
  refine ⟨?_, ?_, ?_, ?_, ?_, ?_⟩
  · simp [compiledBranchRun, hc]
  · simp [compiledBranchRun, hc, isErrorEv]
  · simp [compiledBranchRun, hc]
  · simp [compiledBranchRun, hc, finishRun]
  · cases hp : w.sess.proc <;>
      simp [compiledBranchRun, hc, finishRun, cleanupProcess, hd, hp,
        rmSyncModel, List.mem_filter]
  · intro hs
    simp [compiledBranchRun, hc, compileErrorData, hs]

theorem c4_compile_failure_witness :
    (compiledBranchRun true "Java compilation failed" ⟨2, "", "boom"⟩ 9
        ⟨⟨some 1, some 0⟩, [1], [0]⟩).2.1 = [Ev.errorEv "boom"]
      ∧ (compiledBranchRun true "Java compilation failed" ⟨2, "", "boom"⟩ 9
        ⟨⟨some 1, some 0⟩, [1], [0]⟩).2.2 = none := by
  have h := c4_compile_failure_amended "Java compilation failed" ⟨2, "", "boom"⟩ 9
    ⟨⟨some 1, some 0⟩, [1], [0]⟩ 0 (by decide) rfl
  exact ⟨h.2.2.2.2.2 (by decide), h.2.2.1⟩

/-! ## Terminate and input handlers -/

/-- [C8] The terminate branch always emits exactly the one exit event with
the string marker, which no natural exit payload equals; the tracked
process is killed and the workspace removed; on an idle session the state
is untouched (a no-op) and the event is still emitted. -/
theorem c8_terminate_emits_marker (w : World) :
    (endRun true EndPath.terminateMsg w).2 = [Ev.exitEv (JVal.str "terminated")]
      ∧ (∀ c : Option Int, naturalExitPayload c ≠ JVal.str "terminated")
      ∧ (endRun true EndPath.terminateMsg w).1.sess = ⟨none, none⟩
      ∧ (∀ p, w.sess.proc = some p →
          p ∉ (endRun true EndPath.terminateMsg w).1.alive)
      ∧ (∀ dd, w.sess.wdir = some dd →
          dd ∉ (endRun true EndPath.terminateMsg w).1.dirs)
      ∧ (w.sess.proc = none →
          (endRun true EndPath.terminateMsg w).1.alive = w.alive)
      ∧ (w.sess.wdir = none →
          (endRun true EndPath.terminateMsg w).1.dirs = w.dirs) := by
  refine ⟨rfl, ?_, ?_, ?_, ?_, ?_, ?_⟩
  · intro c; cases c <;> simp [naturalExitPayload]
  · simp [endRun, finishRun]
  · intro p hp
    cases hd : w.sess.wdir <;>
      simp [endRun, finishRun, cleanupProcess, hp, hd, rmSyncModel, List.mem_filter]
  · intro dd hdd
    cases hp : w.sess.proc <;>
      simp [endRun, finishRun, cleanupProcess, hp, hdd, rmSyncModel, List.mem_filter]
  · intro h0
    cases hd : w.sess.wdir <;>
      simp [endRun, finishRun, cleanupProcess, h0, hd, rmSyncModel]
  · intro h0
    cases hp : w.sess.proc <;>
      simp [endRun, finishRun, cleanupProcess, h0, hp, rmSyncModel]

theorem c8_terminate_witness :
    (endRun true EndPath.terminateMsg ⟨⟨some 4, some 7⟩, [4], [7]⟩).2
        = [Ev.exitEv (JVal.str "terminated")]
      ∧ 4 ∉ (endRun true EndPath.terminateMsg ⟨⟨some 4, some 7⟩, [4], [7]⟩).1.alive
      ∧ 7 ∉ (endRun true EndPath.terminateMsg ⟨⟨some 4, some 7⟩, [4], [7]⟩).1.dirs :=
  ⟨(c8_terminate_emits_marker ⟨⟨some 4, some 7⟩, [4], [7]⟩).1,
   (c8_terminate_emits_marker ⟨⟨some 4, some 7⟩, [4], [7]⟩).2.2.2.1 4 rfl,
   (c8_terminate_emits_marker ⟨⟨some 4, some 7⟩, [4], [7]⟩).2.2.2.2.1 7 rfl⟩

/-- writable stdin channel of the active process, with the lines written
so far. -/
structure StdinState where
  writable : Bool
  buf : List String
deriving DecidableEq

/-- the input branch of the message handler (`src/server/index.js` lines
434 to 439): write the payload (empty string when absent) plus a newline
when a process is tracked and its stdin is writable, otherwise fall
through silently. -/
def handleInput (p : Option StdinState) (payload : Option String) :
    Option StdinState × List Ev :=
  match p with
  | some pr =>
    if pr.writable then
      (some ⟨pr.writable, pr.buf ++ [payload.getD "" ++ "\n"]⟩, [])
    else (some pr, [])
  | none => (none, [])

/-- [C9] An input message writes the payload with a newline appended to a
writable stdin of the active process, and is otherwise silently dropped:
no events in any case, and no state change in the dropped cases. -/
theorem c9_input_forwarded_or_dropped (p : Option StdinState) (payload : Option String) :
    ((handleInput p payload).2 = [])
      ∧ (∀ pr, p = some pr → pr.writable = true →
          (handleInput p payload).1 = some ⟨true, pr.buf ++ [payload.getD "" ++ "\n"]⟩)
      ∧ (∀ pr, p = some pr → pr.writable = false → (handleInput p payload).1 = p)
      ∧ (p = none → (handleInput p payload).1 = none) := by
  refine ⟨?_, ?_, ?_, ?_⟩
  · cases p with
    | none => rfl
    | some pr => cases hw : pr.writable <;> simp [handleInput, hw]
  · intro pr hp hw
    subst hp
    simp [handleInput, hw]
  · intro pr hp hw
    subst hp
    simp [handleInput, hw]
  · intro hp
    subst hp
    rfl

theorem c9_input_witness :
    (handleInput (some ⟨true, []⟩) (some "hello")).1 = some ⟨true, ["hello\n"]⟩
      ∧ (handleInput none (some "hello")).2 = [] :=
  ⟨by
    have h := (c9_input_forwarded_or_dropped (some ⟨true, []⟩) (some "hello")).2.1
      ⟨true, []⟩ rfl rfl
    simpa using h,
   (c9_input_forwarded_or_dropped none (some "hello")).1⟩

/-! ## Process liveness under interleaved run handling

The message handler is an async function: for the compiled languages it
suspends at `await runCommand(...)` between the initial cleanup and the
spawn, so a second run message can be handled in that window.  The model
below gives one atomic step per synchronous segment of
`src/server/index.js`: the part of the run branch up to the compile await
(lines 221 to 276), the part after it (lines 277 to 365), the atomic
interpreted-language run branch, and the terminate, close-event and
process-exit handlers.  `tracked` and `wdir` are the shared session
variables, `alive` the set of live child processes, `pending` the number
of handlers suspended at the compile await, `nextP` and `nextW` fresh-name
counters.
-/

structure C1State where
  tracked : Option Nat
  wdir : Option Nat
  alive : List Nat
  pending : Nat
  nextP : Nat
  nextW : Nat
deriving DecidableEq

/-- effect of `cleanupProcess(proc, workdir)` on the live set: the tracked
process, if any, is killed. -/
def killTracked (s : C1State) : List Nat :=
  match s.tracked with
  | none => s.alive
  | some p => s.alive.filter (fun x => !(x == p))

inductive C1Step : C1State → C1State → Prop where
  /-- entire run branch for an interpreted language (python, node,
  prolog, ruby): cleanup, new workspace, spawn, with no await between. -/
  | runSimple (s : C1State) :
      C1Step s ⟨some s.nextP, some s.nextW, s.nextP :: killTracked s,
        s.pending, s.nextP + 1, s.nextW + 1⟩
  /-- run branch for a compiled language up to the compile await:
  cleanup and null the shared variables, make the new workspace, then
  suspend on `await runCommand(javac, ...)`. -/
  | runCompiledStart (s : C1State) :
      C1Step s ⟨none, some s.nextW, killTracked s, s.pending + 1,
        s.nextP, s.nextW + 1⟩
  /-- resumption after a successful compile: spawn the run process and
  overwrite the shared `proc` variable, with no further kill. -/
  | runCompiledSpawn (s : C1State) (h : 0 < s.pending) :
      C1Step s ⟨some s.nextP, s.wdir, s.nextP :: s.alive, s.pending - 1,
        s.nextP + 1, s.nextW⟩
  /-- resumption after a failed compile: error event, cleanup, null. -/
  | runCompiledFail (s : C1State) (h : 0 < s.pending) :
      C1Step s ⟨none, none, killTracked s, s.pending - 1, s.nextP, s.nextW⟩
  /-- terminate message or socket close: cleanup and null. -/
  | terminateStep (s : C1State) :
      C1Step s ⟨none, none, killTracked s, s.pending, s.nextP, s.nextW⟩
  /-- natural exit of a live process followed by its close handler, which
  cleans up whatever the shared variables hold at that moment. -/
  | procCloseStep (s : C1State) (p : Nat) (h : p ∈ s.alive) :
      C1Step s ⟨none, none, (killTracked s).filter (fun x => !(x == p)),
        s.pending, s.nextP, s.nextW⟩

def c1Init : C1State := ⟨none, none, [], 0, 0, 0⟩

/-- [C1] A state with two live processes of one session is reachable: two
compiled-language run messages interleave so that each performs its
cleanup before either spawns, and then both spawn.  This refutes the
at-most-one-process invariant as claimed over all interleavings. -/
theorem c1_two_processes_reachable :
    ∃ s : C1State, Relation.ReflTransGen C1Step c1Init s ∧ s.alive.length = 2 := by
  refine ⟨⟨some 1, some 1, [1, 0], 0, 2, 2⟩, ?_, rfl⟩
  have h1 : C1Step c1Init ⟨none, some 0, [], 1, 0, 1⟩ :=
    C1Step.runCompiledStart c1Init
  have h2 : C1Step ⟨none, some 0, [], 1, 0, 1⟩ ⟨none, some 1, [], 2, 0, 2⟩ :=
    C1Step.runCompiledStart ⟨none, some 0, [], 1, 0, 1⟩
  have h3 : C1Step ⟨none, some 1, [], 2, 0, 2⟩ ⟨some 0, some 1, [0], 1, 1, 2⟩ :=
    C1Step.runCompiledSpawn ⟨none, some 1, [], 2, 0, 2⟩ (by decide)
  have h4 : C1Step ⟨some 0, some 1, [0], 1, 1, 2⟩ ⟨some 1, some 1, [1, 0], 0, 2, 2⟩ :=
    C1Step.runCompiledSpawn ⟨some 0, some 1, [0], 1, 1, 2⟩ (by decide)
  exact Relation.ReflTransGen.tail (Relation.ReflTransGen.tail
    (Relation.ReflTransGen.tail (Relation.ReflTransGen.tail
      Relation.ReflTransGen.refl h1) h2) h3) h4

/-! ## Java entry-point resolver, two-phase variant (src/unnamed/part_000)

`parseJavaPackageAndClasses` (lines 56 to 83) extracts a package name and
the declared type names of one source file; the regex extraction itself is
abstracted as the `parse` environment, while the candidate construction of
lines 69 to 78 (dedup, basename fallback, package qualification) is
translated below.  `findLikelySourceMainClasses` (lines 85 to 103) is the
`likely` environment.  The javap probe result processing and the two
resolution loops (lines 133 to 172) are translated in full.
-/

structure ParsedJava where
  pkg : String
  classNames : List String

def qualify (pkg c : String) : String :=
  if pkg = "" then c else pkg ++ "." ++ c

/-- `path.basename(fileName, '.java')`: last path segment with the
extension removed when it is a proper suffix. -/
def basenameJava (s : String) : String :=
  let b := (splitPath s).getLastD ""
  if !(b == ".java") && strEndsWith b ".java" then b.dropRight 5 else b

/-- fully qualified candidates of one parsed source file (lines 69 to 78):
deduplicated declared names, the file basename when none were found, each
qualified by the package. -/
def fqcnCandidates (fileName : String) (p : ParsedJava) : List String :=
  let u := dedupFirst p.classNames
  let u2 := if u.isEmpty then [basenameJava fileName] else u
  u2.map (qualify p.pkg)

/-- the truthy-and-endsWith filter `name && name.endsWith('.java')`. -/
def isJavaName (n : String) : Bool :=
  !(n == "") && strEndsWith n ".java"

/-- `Array.from(new Set([entryFile, ...javaFiles])).filter(...)`
(lines 147 to 148). -/
def orderedSourceFiles (entryFile : String) (javaFiles : List String) : List String :=
  (dedupFirst (entryFile :: javaFiles)).filter isJavaName

/-- one file met while walking the compiled output tree: directory
segments relative to the workspace, and the file name. -/
structure WalkEntry where
  dirSegs : List String
  fname : String
deriving DecidableEq

def classCandOf (e : WalkEntry) : String :=
  String.intercalate "." (e.dirSegs ++ [e.fname.dropRight 6])

/-- `listCompiledClassCandidates` (lines 105 to 131): keep files ending in
`.class` whose name has no `$` synthetic marker, and turn the relative
path into a dotted fully qualified name. -/
def listCompiledClassCandidates (walk : List WalkEntry) : List String :=
  (walk.filter (fun e =>
    strEndsWith e.fname ".class" && !(containsSeq ['$'] e.fname.toList))).map classCandOf

def sourceCandidatesOf (parse : String → ParsedJava) (fs : List String) : List String :=
  fs.flatMap (fun f => fqcnCandidates f (parse f))

def sourceLikelyMainsOf (likely : String → List String) (fs : List String) : List String :=
  fs.flatMap likely

/-- the ordered, deduplicated candidate list of line 159. -/
def orderedCandidatesModel (parse : String → ParsedJava) (entryFile : String)
    (javaFiles : List String) (walk : List WalkEntry) : List String :=
  dedupFirst (sourceCandidatesOf parse (orderedSourceFiles entryFile javaFiles)
    ++ listCompiledClassCandidates walk)

/-- detection of an unavailable javap tool on the probe stderr, the regex
`/ENOENT|not recognized/i` of line 136: case-insensitive substring. -/
def toolNotFound (s : String) : Bool :=
  let t := s.toList.map Char.toLower
  containsSeq "enoent".toList t || containsSeq "not recognized".toList t

/-- rest of the input after the javap main signature
`public\s+static\s+void\s+main\s*\(\s*java\.lang\.String\[\]\s*\)`. -/
def restAfterJavapSig (cs : List Char) : Option (List Char) := do
  let r ← eatLit "public".toList cs
  let r ← eatWsPlus r
  let r ← eatLit "static".toList r
  let r ← eatWsPlus r
  let r ← eatLit "void".toList r
  let r ← eatWsPlus r
  let r ← eatLit "main".toList r
  let r := eatWsStar r
  let r ← eatLit ['('] r
  let r := eatWsStar r
  let r ← eatLit "java.lang.String[]".toList r
  let r := eatWsStar r
  eatLit [')'] r

def javapSigAt (cs : List Char) : Bool :=
  (restAfterJavapSig cs).isSome

/-- scan a text for a test that must hold at a position preceded by a word
boundary (the tested patterns all start with a word character, so the
boundary holds exactly when the previous character is not one). -/
def scanWordBoundary (test : List Char → Bool) : Bool → List Char → Bool
  | _, [] => false
  | prevW, c :: rest =>
    (!prevW && test (c :: rest)) || scanWordBoundary test (isWordChar c) rest

def javapOutputHasMainSig (s : String) : Bool :=
  scanWordBoundary javapSigAt false s.toList

/-- `classHasMainWithJavap` (lines 133 to 144) applied to the probe
command result: `none` abandons probing (tool unavailable), `some false`
rejects the candidate, `some true` confirms it. -/
def classHasMainWithJavap (r : CmdResult) : Option Bool :=
  if r.code ≠ 0 then
    if r.code = -1 ∧ toolNotFound r.stderr = true then none else some false
  else some (javapOutputHasMainSig (r.stdout ++ "\n" ++ r.stderr))

/-- the probe loop of lines 161 to 165: accept on a confirmed candidate,
continue past a rejected one, break out on an abandoned probe (the break
and a plain loop exhaustion both continue to the fallback loop). -/
def probePhase (oracle : String → Option Bool) : List String → Option String
  | [] => none
  | c :: rest =>
    match oracle c with
    | some true => some c
    | some false => probePhase oracle rest
    | none => none

/-- probe loop followed by the syntactic fallback loop of lines 167 to
169: the first likely main that is also a phase-1 candidate. -/
def resolveFromCandidates (oracle : String → Option Bool)
    (cands mains : List String) : Option String :=
  match probePhase oracle cands with
  | some c => some c
  | none => mains.find? (fun m => cands.contains m)

def findJavaMainClassTwoPhase (oracle : String → Option Bool)
    (parse : String → ParsedJava) (likely : String → List String)
    (entryFile : String) (javaFiles : List String) (walk : List WalkEntry) :
    Option String :=
  resolveFromCandidates oracle (orderedCandidatesModel parse entryFile javaFiles walk)
    (sourceLikelyMainsOf likely (orderedSourceFiles entryFile javaFiles))

/-- the fixed resolution-failure message of lines 250 to 254. -/
def javaMainNotFoundMsg : String :=
  "Main method not found in submitted Java files. Define: public static void main(String[] args)"

/-- caller of the resolver in the java run branch of
`src/unnamed/part_000` (lines 249 to 262): a failed resolution emits the
fixed message and spawns nothing, a successful one spawns the class. -/
def javaRunAfterCompile (resolved : Option String) : List Ev × Option String :=
  match resolved with
  | none => ([Ev.errorEv javaMainNotFoundMsg], none)
  | some c => ([], some c)

theorem probePhase_eq_some {oracle : String → Option Bool} :
    ∀ {l : List String} {c : String}, probePhase oracle l = some c →
      oracle c = some true ∧ c ∈ l := by
  intro l
  induction l with
  | nil => intro c h; cases h
  | cons a l ih =>
    intro c h
    simp only [probePhase] at h
    cases ho : oracle a with
    | none => rw [ho] at h; cases h
    | some b =>
      rw [ho] at h
      cases b with
      | false =>
        simp only at h
        rcases ih h with ⟨h1, h2⟩
        exact ⟨h1, List.mem_cons_of_mem a h2⟩
      | true =>
        simp only at h
        cases h
        exact ⟨ho, List.mem_cons_self a l⟩

theorem probePhase_append_false {oracle : String → Option Bool} {pre : List String}
    (hpre : ∀ x ∈ pre, oracle x = some false) (l : List String) :
    probePhase oracle (pre ++ l) = probePhase oracle l := by
  induction pre with
  | nil => rfl
  | cons a pre ih =>
    have ha : oracle a = some false := hpre a (List.mem_cons_self a pre)
    have htail : ∀ x ∈ pre, oracle x = some false :=
      fun x hx => hpre x (List.mem_cons_of_mem a hx)
    simp only [List.cons_append, probePhase, ha]
    exact ih htail

/-- [C5, amended] In the two-phase resolver a failed resolution makes the
caller emit exactly the fixed message naming the required signature and
spawn nothing, and a successful resolution only ever returns a class that
the probe confirmed or that the syntactic fallback scan found among the
candidates: there is no silent unconfirmed default. -/
theorem c5_two_phase_no_silent_fallback (oracle : String → Option Bool)
    (parse : String → ParsedJava) (likely : String → List String)
    (entryFile : String) (javaFiles : List String) (walk : List WalkEntry) :
    (findJavaMainClassTwoPhase oracle parse likely entryFile javaFiles walk = none →
        javaRunAfterCompile
            (findJavaMainClassTwoPhase oracle parse likely entryFile javaFiles walk)
          = ([Ev.errorEv javaMainNotFoundMsg], none))
      ∧ (∀ cl,
          findJavaMainClassTwoPhase oracle parse likely entryFile javaFiles walk
              = some cl →
            oracle cl = some true
              ∨ (cl ∈ sourceLikelyMainsOf likely (orderedSourceFiles entryFile javaFiles)
                  ∧ cl ∈ orderedCandidatesModel parse entryFile javaFiles walk)) := by
  constructor
  · intro h
    rw [h]
    rfl
  · intro cl h
    unfold findJavaMainClassTwoPhase resolveFromCandidates at h
    cases hp : probePhase oracle (orderedCandidatesModel parse entryFile javaFiles walk) with
    | some c =>
      rw [hp] at h
      simp only [Option.some.injEq] at h
      subst h
      exact Or.inl (probePhase_eq_some hp).1
    | none =>
      rw [hp] at h
      simp only at h
      refine Or.inr ⟨List.mem_of_find?_eq_some h, ?_⟩
      have hc := List.find?_some h
      simpa using hc

def oracleAllFalse : String → Option Bool := fun _ => some false

def parseNoClasses : String → ParsedJava := fun _ => ⟨"", []⟩

def likelyNone : String → List String := fun _ => []

theorem c5_two_phase_witness :
    javaRunAfterCompile (findJavaMainClassTwoPhase oracleAllFalse parseNoClasses
        likelyNone "Main.java" ["Main.java"] [])
      = ([Ev.errorEv javaMainNotFoundMsg], none) :=
  (c5_two_phase_no_silent_fallback oracleAllFalse parseNoClasses likelyNone
    "Main.java" ["Main.java"] []).1 (by decide)

/-- [C6] Per candidate the probe has exactly three outcomes: after any
run of rejected candidates, a confirmed candidate is accepted immediately
regardless of what follows, an abandoned probe hands the whole resolution
to the syntactic fallback scan over the candidate list, and the abandoned
outcome arises exactly from exit code `-1` with a stderr matching the
tool-not-found signature. -/
theorem c6_probe_outcomes (oracle : String → Option Bool)
    (pre rest mains : List String) (c : String)
    (hpre : ∀ x ∈ pre, oracle x = some false) :
    (oracle c = some true →
        resolveFromCandidates oracle (pre ++ c :: rest) mains = some c)
      ∧ (oracle c = none →
          resolveFromCandidates oracle (pre ++ c :: rest) mains
            = mains.find? (fun m => (pre ++ c :: rest).contains m))
      ∧ (∀ r : CmdResult, classHasMainWithJavap r = none
          ↔ (r.code = -1 ∧ toolNotFound r.stderr = true)) := by
  refine ⟨?_, ?_, ?_⟩
  · intro hc
    unfold resolveFromCandidates
    rw [probePhase_append_false hpre]
    simp [probePhase, hc]
  · intro hc
    unfold resolveFromCandidates
    rw [probePhase_append_false hpre]
    simp [probePhase, hc]
  · intro r
    constructor
    · intro h
      by_cases h0 : r.code ≠ 0
      · rw [classHasMainWithJavap, if_pos h0] at h
        by_cases h1 : r.code = -1 ∧ toolNotFound r.stderr = true
        · exact h1
        · rw [if_neg h1] at h; cases h
      · rw [classHasMainWithJavap, if_neg h0] at h; cases h
    · rintro ⟨h1, h2⟩
      have h0 : r.code ≠ 0 := by rw [h1]; decide
      rw [classHasMainWithJavap, if_pos h0, if_pos ⟨h1, h2⟩]

def oracleThree : String → Option Bool := fun s =>
  if s = "A" then some false else if s = "B" then none else some true

theorem c6_probe_witness :
    resolveFromCandidates oracleThree ["A", "B", "C"] ["C"] = some "C" := by
  have h := (c6_probe_outcomes oracleThree ["A"] ["C"] ["C"] "B"
    (by intro x hx; simp at hx; subst hx; rfl)).2.1 (by rfl)
  exact h.trans (by decide)

/-- spec-side definition of §4.3 phase 1, written to its words: candidates
of the entry file first, then of the other submitted files, then the
compiled artifacts without the synthetic marker, duplicates dropped
keeping the first occurrence.  Compared against the translated code. -/
def specCandidateOrder (parse : String → ParsedJava) (entryFile : String)
    (others : List String) (walk : List WalkEntry) : List String :=
  dedupFirst (fqcnCandidates entryFile (parse entryFile)
    ++ others.flatMap (fun f => fqcnCandidates f (parse f))
    ++ listCompiledClassCandidates walk)

/-- [C7] With distinct submitted `.java` file names the candidate list the
code builds equals the spec ordering — entry-file types, then the other
files in order, then compiled artifacts, first occurrence kept — and
artifacts whose file name contains `$` never contribute. -/
theorem c7_candidate_priority (parse : String → ParsedJava) (entryFile : String)
    (javaFiles : List String) (walk : List WalkEntry)
    (hnd : javaFiles.Nodup)
    (hentry : isJavaName entryFile = true)
    (hall : ∀ n ∈ javaFiles, isJavaName n = true) :
    orderedCandidatesModel parse entryFile javaFiles walk
        = specCandidateOrder parse entryFile
            (javaFiles.filter (fun n => !(n == entryFile))) walk
      ∧ listCompiledClassCandidates
            (walk.filter (fun e => !(containsSeq ['$'] e.fname.toList)))
          = listCompiledClassCandidates walk := by
  constructor
  · have hfiles : orderedSourceFiles entryFile javaFiles
        = entryFile :: javaFiles.filter (fun n => !(n == entryFile)) := by
      unfold orderedSourceFiles dedupFirst
      have hstep : dedupFirstAux [] (entryFile :: javaFiles)
          = entryFile :: dedupFirstAux [entryFile] javaFiles := by
        simp [dedupFirstAux]
      rw [hstep, dedupFirstAux_eq_filter javaFiles hnd [entryFile]]
      rw [List.filter_cons_of_pos hentry]
      congr 1
      rw [List.filter_filter]
      refine List.filter_congr ?_
      intro a ha
      have hdec : (decide (a = entryFile)) = (a == entryFile) := by
        by_cases hb : a = entryFile
        · simp [hb]
        · simp [hb]
      simp [hall a ha, List.contains_cons, hdec]
    unfold orderedCandidatesModel specCandidateOrder sourceCandidatesOf
    rw [hfiles]
    simp [List.flatMap_cons]
  · unfold listCompiledClassCandidates
    rw [List.filter_filter]
    refine congrArg (List.map classCandOf) (List.filter_congr ?_)
    intro e _
    cases h1 : strEndsWith e.fname ".class" <;>
      cases h2 : containsSeq ['$'] e.fname.toList <;> simp [h1, h2]

def parseSimple : String → ParsedJava := fun n => ⟨"", [basenameJava n]⟩

theorem c7_candidate_witness :
    orderedCandidatesModel parseSimple "Main.java" ["Util.java"]
        [⟨[], "Main.class"⟩, ⟨[], "Main$1.class"⟩]
      = specCandidateOrder parseSimple "Main.java" ["Util.java"]
        [⟨[], "Main.class"⟩, ⟨[], "Main$1.class"⟩] := by
  have h := (c7_candidate_priority parseSimple "Main.java" ["Util.java"]
    [⟨[], "Main.class"⟩, ⟨[], "Main$1.class"⟩] (by decide) (by decide)
    (by intro n hn; simp at hn; subst hn; decide)).1
  exact h.trans (by decide)

/-! ## Java entry-point resolver, fallback-returning variant
(src/server/index.js lines 178 to 205)

This variant scans the submitted files once and, when no file passes the
loose main-method test, returns the entry file basename (qualified by the
entry file package) without any confirmation and without failing.
-/

/-- line splitter for the multiline `^` anchor (JavaScript `m` flag). -/
def splitLinesAux (cur : List Char) : List Char → List (List Char)
  | [] => [cur.reverse]
  | c :: cs =>
    if c = '\n' then cur.reverse :: splitLinesAux [] cs
    else splitLinesAux (c :: cur) cs

/-- one-line match of `^\s*package\s+([\w.]+)\s*;`, returning the capture. -/
def pkgLineMatch (cs : List Char) : Option String :=
  let r := eatWsStar cs
  match eatLit "package".toList r with
  | none => none
  | some r1 =>
    match eatWsPlus r1 with
    | none => none
    | some r2 =>
      let sp := r2.span (fun c => isWordChar c || c = '.')
      if sp.1.isEmpty then none
      else
        match eatLit [';'] (eatWsStar sp.2) with
        | none => none
        | some _ => some (String.mk sp.1)

/-- first match of the package declaration regex over the content. -/
def pkgDecl (content : String) : Option String :=
  (splitLinesAux [] content.toList).findSome? pkgLineMatch

/-- one-line match of `^\s*(public\s+)?class\s+(\w+)`, returning the
captured class name. -/
def classLineMatch (cs : List Char) : Option String :=
  let r := eatWsStar cs
  let r2 :=
    match eatLit "public".toList r with
    | some rp =>
      match eatWsPlus rp with
      | some rq => rq
      | none => r
    | none => r
  match eatLit "class".toList r2 with
  | none => none
  | some r3 =>
    match eatWsPlus r3 with
    | none => none
    | some r4 =>
      let sp := r4.span isWordChar
      if sp.1.isEmpty then none else some (String.mk sp.1)

def firstClassDecl (content : String) : Option String :=
  (splitLinesAux [] content.toList).findSome? classLineMatch

/-- match of `static\s+void\s+main\s*\(\s*String\s*\[\]\s*\w*\s*\)` at one
position (the regex has no word-boundary assertion and no anchor). -/
def mainLooseAt (cs : List Char) : Bool :=
  (do
    let r ← eatLit "static".toList cs
    let r ← eatWsPlus r
    let r ← eatLit "void".toList r
    let r ← eatWsPlus r
    let r ← eatLit "main".toList r
    let r := eatWsStar r
    let r ← eatLit ['('] r
    let r := eatWsStar r
    let r ← eatLit "String".toList r
    let r := eatWsStar r
    let r ← eatLit "[]".toList r
    let r := eatWsStar r
    let r := (r.span isWordChar).2
    let r := eatWsStar r
    eatLit [')'] r).isSome

def scanAnyPos (test : List Char → Bool) : List Char → Bool
  | [] => false
  | c :: rest => test (c :: rest) || scanAnyPos test rest

def hasMainLoose (content : String) : Bool :=
  scanAnyPos mainLooseAt content.toList

/-- `fs.readFileSync` of a materialized file name: the content written
last for that name, or a failed read for a name never written. -/
def readWorkspace (files : List SrcFile) (n : String) : Option String :=
  ((files.filter (fun f => f.name == n)).map (fun f => f.content)).getLast?

/-- loop body of the fallback-returning `findJavaMainClass`: remember the
entry file package as the fallback package, return the first file whose
content has the loose main signature and a class declaration, and fall
back to the qualified entry basename after the loop. -/
def fjmcLoop (read : String → Option String) (entryFile : String) :
    List String → String → String
  | [], fbPkg =>
    let fb := basenameJava entryFile
    if fbPkg = "" then fb else fbPkg ++ "." ++ fb
  | f :: rest, fbPkg =>
    match read f with
    | none => fjmcLoop read entryFile rest fbPkg
    | some content =>
      let pkg := (pkgDecl content).getD ""
      let fbPkg2 := if f = entryFile then pkg else fbPkg
      match (if hasMainLoose content then firstClassDecl content else none) with
      | some cn => qualify pkg cn
      | none => fjmcLoop read entryFile rest fbPkg2

def findJavaMainClassFallback (files : List SrcFile) (entryFile : String) : String :=
  let javaFiles := (files.map (fun f => f.name)).filter isJavaName
  fjmcLoop (readWorkspace files) entryFile javaFiles ""

/-- java run branch of `src/server/index.js` lines 284 to 288: after a
successful compile the resolver result is spawned unconditionally, with no
error branch for resolution. -/
def javaBranchFallbackVariant (files : List SrcFile) (entryFile : String) :
    List Ev × Option String :=
  ([], some (findJavaMainClassFallback files entryFile))

/-- [C5, counterexample] In the fallback-returning variant a submission
whose sole file has no main method resolves to the unconfirmed entry-file
basename and a java process is spawned with it, with no error event — the
claim that resolution then fails with the fixed message is false of this
variant. -/
theorem c5_silent_fallback_counterexample :
    hasMainLoose "" = false
      ∧ findJavaMainClassFallback [⟨"Main.java", ""⟩] "Main.java" = "Main"
      ∧ javaBranchFallbackVariant [⟨"Main.java", ""⟩] "Main.java" = ([], some "Main") := by
  decide

/-! ## Node branch ESM detection (src/server/index.js lines 255 to 273) -/

/-- match of `import\s+|export\s+` at one position (the leading `\b` is
handled by the word-boundary scanner). -/
def importOrExportAt (cs : List Char) : Bool :=
  (match eatLit "import".toList cs with
   | some r => (eatWsPlus r).isSome
   | none => false)
  || (match eatLit "export".toList cs with
      | some r => (eatWsPlus r).isSome
      | none => false)

/-- the regex `/\b(import\s+|export\s+)/` applied to the entry content. -/
def esmTest (content : String) : Bool :=
  scanWordBoundary importOrExportAt false content.toList

/-- literal the node branch writes: `JSON.stringify({ type: 'module' })`. -/
def jsonTypeModule : String := "\x7b\"type\":\"module\"\x7d"

inductive NodeAct where
  | writePackageJson (content : String)
  | spawnNode (entry : String)
deriving DecidableEq

/-- the node run branch: read the entry file, treat an unreadable entry as
non-ESM, write a `package.json` marking a module before spawning exactly
when the ESM pattern matched, then spawn node on the entry file. -/
def nodeBranch (entry : String) (entryRead : Option String) : List NodeAct :=
  let useEsm :=
    match entryRead with
    | some c => esmTest c
    | none => false
  (if useEsm then [NodeAct.writePackageJson jsonTypeModule] else [])
    ++ [NodeAct.spawnNode entry]

/-- [C10] A node run writes `package.json` with the module marker before
the spawn exactly when the entry content matches the import-or-export
declaration pattern, and writes nothing when it does not match or the
entry could not be read; concrete checks exercise the pattern. -/
theorem c10_esm_detection (entry : String) (entryRead : Option String) :
    (∀ c, entryRead = some c → esmTest c = true →
        nodeBranch entry entryRead
          = [NodeAct.writePackageJson jsonTypeModule, NodeAct.spawnNode entry])
      ∧ (∀ c, entryRead = some c → esmTest c = false →
          nodeBranch entry entryRead = [NodeAct.spawnNode entry])
      ∧ (entryRead = none → nodeBranch entry entryRead = [NodeAct.spawnNode entry])
      ∧ esmTest "import fs from \"fs\";\n" = true
      ∧ esmTest "const fs = require(\"fs\");\n" = false
      ∧ esmTest "reimport x" = false := by
  refine ⟨?_, ?_, ?_, by decide, by decide, by decide⟩
  · intro c hc he
    subst hc
    simp [nodeBranch, he]
  · intro c hc he
    subst hc
    simp [nodeBranch, he]
  · intro hc
    subst hc
    rfl

theorem c10_esm_witness :
    nodeBranch "index.js" (some "import fs from \"fs\";\n")
        = [NodeAct.writePackageJson jsonTypeModule, NodeAct.spawnNode "index.js"]
      ∧ nodeBranch "index.js" (some "const fs = require(\"fs\");\n")
        = [NodeAct.spawnNode "index.js"] :=
  ⟨(c10_esm_detection "index.js" (some "import fs from \"fs\";\n")).1
      "import fs from \"fs\";\n" rfl (by decide),
   (c10_esm_detection "index.js" (some "const fs = require(\"fs\");\n")).2.1
      "const fs = require(\"fs\");\n" rfl (by decide)⟩

end CodeSync
